import Mathlib

set_option maxHeartbeats 1000000

/-!
Shallow embedding of src/protobuf_json.py, a bidirectional converter between
protobuf message instances and a generic JSON tree.  Machine integers are
modelled as Int (the Python runtime uses arbitrary-precision integers), and
Python floats are idealized as exact rationals; the JSON text layer is the
external codec and is modelled from the interface contract in the spec.
-/

/-- Wire types of protobuf field descriptors, as referenced by TYPE_MAP in the
source.  TYPE_DOUBLE and TYPE_BYTES stand for the types outside TYPE_MAP. -/
inductive FieldType : Type where
  | TYPE_BOOL
  | TYPE_FLOAT
  | TYPE_INT32
  | TYPE_INT64
  | TYPE_UINT32
  | TYPE_UINT64
  | TYPE_STRING
  | TYPE_ENUM
  | TYPE_MESSAGE
  | TYPE_DOUBLE
  | TYPE_BYTES
  deriving DecidableEq

/-- Field labels of protobuf field descriptors. -/
inductive Label : Type where
  | LABEL_OPTIONAL
  | LABEL_REQUIRED
  | LABEL_REPEATED
  deriving DecidableEq

/-- Scalar constants usable as declared field defaults. -/
inductive ScalarValue : Type where
  | b (v : Bool)
  | i (v : Int)
  | f (v : Rat)
  | s (v : String)
  deriving DecidableEq

/-- One entry of an enum symbol table: a symbolic name and its wire number,
mirroring google.protobuf EnumValueDescriptor. -/
structure EnumValueDesc : Type where
  name : String
  number : Int
  deriving DecidableEq

/-- Static metadata of one message field, mirroring the attributes of
google.protobuf FieldDescriptor that the source reads: name, type, label,
has_default_value, default_value, enum_type (its value table) and, for
message-typed fields, the field list of the embedded message type. -/
inductive FieldDescriptor : Type where
  | mk (name : String) (type : FieldType) (label : Label)
       (has_default_value : Bool) (default_value : ScalarValue)
       (enum_type : List EnumValueDesc)
       (message_type : List FieldDescriptor)

def FieldDescriptor.name : FieldDescriptor → String
  | .mk n _ _ _ _ _ _ => n

def FieldDescriptor.type : FieldDescriptor → FieldType
  | .mk _ t _ _ _ _ _ => t

def FieldDescriptor.label : FieldDescriptor → Label
  | .mk _ _ l _ _ _ _ => l

def FieldDescriptor.has_default_value : FieldDescriptor → Bool
  | .mk _ _ _ h _ _ _ => h

def FieldDescriptor.default_value : FieldDescriptor → ScalarValue
  | .mk _ _ _ _ d _ _ => d

def FieldDescriptor.enum_type : FieldDescriptor → List EnumValueDesc
  | .mk _ _ _ _ _ e _ => e

def FieldDescriptor.message_type : FieldDescriptor → List FieldDescriptor
  | .mk _ _ _ _ _ _ m => m

/-- Storage of one field inside a message instance: unset, a set scalar, or
the element list of a repeated field. -/
inductive FieldState (α : Type) : Type where
  | unset
  | scalarSet (v : α)
  | repeatedVals (vs : List α)

/-- Dynamically typed runtime value: the JSON tree constructors
(null, bool, number, string, array, object) plus embedded protobuf message
instances, which the encode path traverses.  A message value carries its
DESCRIPTOR field list and the per-field storage. -/
inductive PyValue : Type where
  | nil
  | boolean (b : Bool)
  | integer (n : Int)
  | floating (q : Rat)
  | string (s : String)
  | array (xs : List PyValue)
  | object (kvs : List (String × PyValue))
  | message (message_type : List FieldDescriptor)
            (states : List (String × FieldState PyValue))

/-- Errors of the embedding: the four library error classes of the source plus
the Python builtin exceptions (TypeError, ValueError) that the casts in
TYPE_MAP can surface, and the interpreter recursion limit. -/
inductive PyError : Type where
  | jsonDataMissing (fieldName : String)
  | protoEnumValueNotFound (value : String)
  | unsupportedFieldType (t : FieldType)
  | typeError
  | valueError
  | recursionLimit
  deriving DecidableEq

/-- Message class as the source uses it: DESCRIPTOR.fields in schema order,
and the class attribute namespace used by getattr / hasattr during enum
decoding (for nested enums it contains each symbol name bound to its number,
next to unrelated class attributes such as DESCRIPTOR or method names). -/
structure MessageClass : Type where
  fields : List FieldDescriptor
  attrs : List (String × PyValue)

/-- A concrete message instance: its class plus per-field storage. -/
structure MessageInstance : Type where
  cls : MessageClass
  states : List (String × FieldState PyValue)

/-! Python primitive semantics used by the casts in TYPE_MAP. -/

/-- Truthiness, the Python bool() cast.  Objects without a length protocol
(such as protobuf messages) are truthy by default. -/
def pyTruthy : PyValue → Bool
  | .nil => false
  | .boolean b => b
  | .integer n => n != 0
  | .floating q => q != 0
  | .string s => s != ""
  | .array xs => !xs.isEmpty
  | .object kvs => !kvs.isEmpty
  | .message _ _ => true

/-- Truncation of a rational toward zero, the behaviour of the Python
int() cast on floats. -/
def ratTrunc (q : Rat) : Int :=
  if 0 ≤ q.num then ((q.num.natAbs / q.den : Nat) : Int)
  else -((q.num.natAbs / q.den : Nat) : Int)

/-- Python int() cast: identity on integers, 0 or 1 on bools, truncation on
floats, decimal parse on strings (ValueError on a non-numeric string),
TypeError on container or None arguments. -/
def pyInt : PyValue → Except PyError PyValue
  | .integer n => .ok (.integer n)
  | .boolean b => .ok (.integer (if b then 1 else 0))
  | .floating q => .ok (.integer (ratTrunc q))
  | .string s =>
    match s.toInt? with
    | some n => .ok (.integer n)
    | none => .error .valueError
  | _ => .error .typeError

/-- Decimal literal parse for the Python float() cast on strings: an optional
sign, digits, and an optional fractional part.  Exponent forms are omitted;
they are unreachable from the verified claims. -/
def parsePyFloat (s : String) : Option Rat :=
  let core : String → Option Rat := fun t =>
    match t.split (fun c => c == '.') with
    | [a] => (a.toNat?).map (fun n => (n : Rat))
    | [a, b] =>
      match a.toNat?, b.toNat? with
      | some ai, some bi => some ((ai : Rat) + (bi : Rat) / ((10 : Rat) ^ b.length))
      | _, _ => none
    | _ => none
  if s.startsWith "-" then (core (s.drop 1)).map (fun r => -r)
  else if s.startsWith "+" then core (s.drop 1)
  else core s

/-- Python float() cast, with floats idealized as exact rationals. -/
def pyFloat : PyValue → Except PyError PyValue
  | .floating q => .ok (.floating q)
  | .integer n => .ok (.floating (n : Rat))
  | .boolean b => .ok (.floating (if b then 1 else 0))
  | .string s =>
    match parsePyFloat s with
    | some q => .ok (.floating q)
    | none => .error .valueError
  | _ => .error .typeError

mutual

/-- Python repr of a value, used by the unicode() cast on non-string
arguments (for which unicode and repr agree on this value domain). -/
def pyRepr : PyValue → String
  | .nil => "None"
  | .boolean b => if b then "True" else "False"
  | .integer n => toString n
  | .floating q => toString q
  | .string s => "u\x27" ++ s ++ "\x27"
  | .array xs => "[" ++ String.intercalate ", " (pyReprList xs) ++ "]"
  | .object kvs => "\x7b" ++ String.intercalate ", " (pyReprObject kvs) ++ "\x7d"
  | .message _ _ => "<protobuf message>"

def pyReprList : List PyValue → List String
  | [] => []
  | v :: rest => pyRepr v :: pyReprList rest

def pyReprObject : List (String × PyValue) → List String
  | [] => []
  | kv :: rest => ("u\x27" ++ kv.1 ++ "\x27: " ++ pyRepr kv.2) :: pyReprObject rest

end

/-- Python unicode() cast: identity on strings, string conversion otherwise. -/
def pyUnicode : PyValue → Except PyError PyValue
  | .string s => .ok (.string s)
  | v => .ok (.string (pyRepr v))

/-- Python iteration over a value, as in a for loop or list comprehension:
lists yield their elements, strings yield one-character strings, dicts yield
their keys; other values raise TypeError. -/
def pyIterate : PyValue → Except PyError (List PyValue)
  | .array xs => .ok xs
  | .string s => .ok (s.data.map (fun c => .string (String.singleton c)))
  | .object kvs => .ok (kvs.map (fun kv => .string kv.1))
  | _ => .error .typeError

/-- TYPE_MAP of the source: the partial mapping from field type to the Python
cast applied on the decode path.  isSome of this mapping is the membership
test used by both conversion directions. -/
def TYPE_MAP : FieldType → Option (PyValue → Except PyError PyValue)
  | .TYPE_BOOL => some (fun v => .ok (.boolean (pyTruthy v)))
  | .TYPE_FLOAT => some pyFloat
  | .TYPE_INT32 => some pyInt
  | .TYPE_INT64 => some pyInt
  | .TYPE_UINT32 => some pyInt
  | .TYPE_UINT64 => some pyInt
  | .TYPE_STRING => some pyUnicode
  | .TYPE_ENUM => some pyInt
  | _ => none

/-! Message class and instance attribute access. -/

/-- hasattr on the message class. -/
def MessageClass.hasattr (cls : MessageClass) (n : String) : Bool :=
  (cls.attrs.lookup n).isSome

/-- getattr on the message class. -/
def MessageClass.getattr (cls : MessageClass) (n : String) : Option PyValue :=
  cls.attrs.lookup n

/-- Storage lookup on an instance: a field never assigned is unset. -/
def lookupState (states : List (String × FieldState PyValue)) (n : String) :
    FieldState PyValue :=
  (states.lookup n).getD .unset

/-- Update-or-insert of one field state, the effect of assigning through the
instance attribute protocol. -/
def setState (states : List (String × FieldState PyValue)) (n : String)
    (st : FieldState PyValue) : List (String × FieldState PyValue) :=
  if (List.lookup n states).isSome then
    states.map (fun p => if p.1 = n then (n, st) else p)
  else states ++ [(n, st)]

/-- Conversion of a declared default constant to a runtime value. -/
def scalarToPy : ScalarValue → PyValue
  | .b v => .boolean v
  | .i v => .integer v
  | .f v => .floating v
  | .s v => .string v

/-- Value reported for one storage slot by instance attribute access:
repeated fields report their element container, set scalars their value; an
unset scalar reports the field default, which for a message-typed field is
the default (empty) embedded instance of the field message type. -/
def stateGetAttr (fd : FieldDescriptor) (st : FieldState PyValue) : PyValue :=
  match st with
  | .repeatedVals vs => .array vs
  | .scalarSet v => v
  | .unset =>
    if fd.label = .LABEL_REPEATED then .array []
    else if fd.type = .TYPE_MESSAGE then .message fd.message_type []
    else scalarToPy fd.default_value

/-- getattr on a message instance. -/
def instGetAttr (fd : FieldDescriptor) (states : List (String × FieldState PyValue)) :
    PyValue :=
  stateGetAttr fd (lookupState states fd.name)

/-! Decode path: _convert_json_value and json2proto. -/

/-- Translation of _convert_json_value: enum fields resolve the JSON value as
an attribute of the message class (hasattr requires a string name, so a
non-string JSON value raises TypeError), other supported types apply the
TYPE_MAP cast, and any remaining type raises UnsupportedFieldTypeError. -/
def convert_json_value (field : FieldDescriptor) (value : PyValue)
    (message_class : MessageClass) : Except PyError PyValue :=
  if field.type = .TYPE_ENUM then
    match value with
    | .string s =>
      match message_class.getattr s with
      | some v => .ok v
      | none => .error (.protoEnumValueNotFound s)
    | _ => .error .typeError
  else
    match TYPE_MAP field.type with
    | some cast => cast value
    | none => .error (.unsupportedFieldType field.type)

/-- One iteration of the json2proto field loop, threading the instance
storage: a present key is converted (element-wise, appended in order, for a
repeated field), an absent key falls back to the declared default, and a
required field with neither raises JsonDataMissingError naming the field. -/
def fieldDecodeStep (message_class : MessageClass)
    (json_data : List (String × PyValue))
    (states : List (String × FieldState PyValue)) (field : FieldDescriptor) :
    Except PyError (List (String × FieldState PyValue)) :=
  match json_data.lookup field.name with
  | some value =>
    if field.label = .LABEL_REPEATED then
      match pyIterate value with
      | .error e => .error e
      | .ok items =>
        match items.mapM (fun v => convert_json_value field v message_class) with
        | .error e => .error e
        | .ok conv =>
          .ok (setState states field.name
            (match lookupState states field.name with
             | .repeatedVals old => .repeatedVals (old ++ conv)
             | _ => .repeatedVals conv))
    else
      match convert_json_value field value message_class with
      | .error e => .error e
      | .ok v => .ok (setState states field.name (.scalarSet v))
  | none =>
    if field.has_default_value then
      .ok (setState states field.name (.scalarSet (scalarToPy field.default_value)))
    else if field.label = .LABEL_REQUIRED then
      .error (.jsonDataMissing field.name)
    else
      .ok states

/-- Translation of json2proto on an already-parsed JSON tree: fold the field
loop over the descriptors of the message class, starting from a fresh empty
instance.  A non-object tree raises TypeError at the subscript access. -/
def json2proto_data (tree : PyValue) (message_class : MessageClass) :
    Except PyError MessageInstance :=
  match tree with
  | .object json_data =>
    (message_class.fields.foldlM (fieldDecodeStep message_class json_data) []).map
      (fun sts => ⟨message_class, sts⟩)
  | _ => .error .typeError

/-- Modelled from the spec: the JSON text layer.  The simplejson codec is an
external collaborator, not part of src; per the interface contract it parses
text to a generic tree and serializes a tree back deterministically in
insertion order, so a JSON text is represented by the tree it denotes. -/
structure JsonText : Type where
  tree : PyValue

/-- Modelled from the spec: simplejson.loads of the external codec. -/
def simplejson_loads (s : JsonText) : PyValue := s.tree

/-- Modelled from the spec: simplejson.dumps of the external codec. -/
def simplejson_dumps (t : PyValue) : JsonText := ⟨t⟩

/-- Translation of json2proto: parse the JSON text, then decode. -/
def json2proto (json_str : JsonText) (message_class : MessageClass) :
    Except PyError MessageInstance :=
  json2proto_data (simplejson_loads json_str) message_class

/-! Encode path: _convert_proto_value, proto2json_dict and proto2json. -/

/-- Update-or-insert of one key of a Python dict, preserving the position of
an existing key and appending a fresh key, the semantics of dict item
assignment assumed of the insertion-ordered codec collaborator. -/
def dictInsert (kvs : List (String × PyValue)) (k : String) (v : PyValue) :
    List (String × PyValue) :=
  if (List.lookup k kvs).isSome then
    kvs.map (fun p => if p.1 = k then (k, v) else p)
  else kvs ++ [(k, v)]

/-- Key lookup of values_by_number on the enum value table.  Python dict keys
compare by numeric equality, so a bool or an integral float finds the entry
of the corresponding integer; the percent-d rendering of the error message
accepts any numeric argument. -/
def values_by_number_get (es : List EnumValueDesc) (value : PyValue) :
    Except PyError (Option EnumValueDesc × String) :=
  match value with
  | .integer n => .ok (es.find? (fun e => e.number == n), toString n)
  | .boolean b =>
    .ok (es.find? (fun e => e.number == (if b then 1 else 0)),
         toString (if b then (1 : Int) else 0))
  | .floating q =>
    if q.den = 1 then .ok (es.find? (fun e => e.number == q.num), toString q.num)
    else .ok (none, toString (ratTrunc q))
  | _ => .error .typeError

/-- Translation of _convert_proto_value: enum numbers are rendered as their
symbolic name through values_by_number (ProtoEnumValueNotFoundError when the
number has no entry), TYPE_MAP types pass through unchanged, and message
values are encoded by the recursive message encoder, supplied here as an
explicit argument because the recursion is tied off in proto2json_fields. -/
def convert_proto_value
    (proto2json_dict_rec : List FieldDescriptor →
      List (String × FieldState PyValue) → Except PyError (List (String × PyValue)))
    (field : FieldDescriptor) (value : PyValue) : Except PyError PyValue :=
  if field.type = .TYPE_ENUM then
    match values_by_number_get field.enum_type value with
    | .error e => .error e
    | .ok (some tmp_field, _) => .ok (.string tmp_field.name)
    | .ok (none, rendered) => .error (.protoEnumValueNotFound rendered)
  else if (TYPE_MAP field.type).isSome then
    .ok value
  else if field.type = .TYPE_MESSAGE then
    match value with
    | .message mfields mstates => (proto2json_dict_rec mfields mstates).map .object
    | _ => .error .typeError
  else
    .error (.unsupportedFieldType field.type)

/-- Translation of the proto2json_dict loop.  The source recurses without
bound on recursively nested message schemas, so the embedding is indexed by
fuel standing for the interpreter recursion limit; every recursive step
consumes one unit, and exhaustion reports the recursion limit. -/
def proto2json_fields : Nat → List (String × FieldState PyValue) →
    List (String × PyValue) → List FieldDescriptor →
    Except PyError (List (String × PyValue))
  | 0, _, _, _ => .error .recursionLimit
  | fuel + 1, _, json_data, [] =>
    let _ := fuel
    .ok json_data
  | fuel + 1, states, json_data, field :: rest =>
    let value := instGetAttr field states
    if field.label = .LABEL_REPEATED then
      match pyIterate value with
      | .error e => .error e
      | .ok items =>
        match items.mapM
            (convert_proto_value
              (fun mf ms => proto2json_fields fuel ms [] mf) field) with
        | .error e => .error e
        | .ok ws =>
          proto2json_fields fuel states (dictInsert json_data field.name (.array ws)) rest
    else
      match convert_proto_value
          (fun mf ms => proto2json_fields fuel ms [] mf) field value with
      | .error e => .error e
      | .ok w =>
        proto2json_fields fuel states (dictInsert json_data field.name w) rest

/-- _convert_proto_value with its message recursion tied to the encoder at a
given fuel. -/
def convert_proto_value_at (fuel : Nat) (field : FieldDescriptor)
    (value : PyValue) : Except PyError PyValue :=
  convert_proto_value (fun mf ms => proto2json_fields fuel ms [] mf) field value

/-- Translation of proto2json_dict on a message instance. -/
def proto2json_dict (fuel : Nat) (message_instance : MessageInstance) :
    Except PyError (List (String × PyValue)) :=
  proto2json_fields fuel message_instance.states [] message_instance.cls.fields

/-- Translation of proto2json: encode to a dict tree, then serialize. -/
def proto2json (fuel : Nat) (message_instance : MessageInstance) :
    Except PyError JsonText :=
  (proto2json_dict fuel message_instance).map (fun kvs => simplejson_dumps (.object kvs))

/-! Auxiliary notions for the proofs: the effect of one decode-loop iteration
on the instance storage, isolated from the storage it is applied to. -/

/-- Effect of one decode-loop iteration on the storage of the decoded field:
unchanged, overwritten, or extended. -/
inductive FieldEffect : Type where
  | keep
  | setTo (st : FieldState PyValue)
  | extendBy (vs : List PyValue)

/-- Application of an effect to the prior state of the decoded field. -/
def applyEffSt : FieldState PyValue → FieldEffect → FieldState PyValue
  | st, .keep => st
  | _, .setTo st => st
  | .repeatedVals old, .extendBy vs => .repeatedVals (old ++ vs)
  | _, .extendBy vs => .repeatedVals vs

/-- Application of an effect under a field name to the whole storage. -/
def applyEffect (states : List (String × FieldState PyValue)) (n : String) :
    FieldEffect → List (String × FieldState PyValue)
  | .keep => states
  | .setTo st => setState states n st
  | .extendBy vs => setState states n (applyEffSt (lookupState states n) (.extendBy vs))

/-- Effect computed by one decode-loop iteration, before application. -/
def fieldDecodeEffect (message_class : MessageClass)
    (json_data : List (String × PyValue)) (field : FieldDescriptor) :
    Except PyError FieldEffect :=
  match json_data.lookup field.name with
  | some value =>
    if field.label = .LABEL_REPEATED then
      match pyIterate value with
      | .error e => .error e
      | .ok items =>
        match items.mapM (fun v => convert_json_value field v message_class) with
        | .error e => .error e
        | .ok conv => .ok (.extendBy conv)
    else
      match convert_json_value field value message_class with
      | .error e => .error e
      | .ok v => .ok (.setTo (.scalarSet v))
  | none =>
    if field.has_default_value then
      .ok (.setTo (.scalarSet (scalarToPy field.default_value)))
    else if field.label = .LABEL_REQUIRED then
      .error (.jsonDataMissing field.name)
    else
      .ok .keep

/-- State of the decoded field produced from a fresh instance, where every
field starts unset. -/
def fieldDecodeResult (message_class : MessageClass)
    (json_data : List (String × PyValue)) (field : FieldDescriptor) :
    Except PyError (FieldState PyValue) :=
  (fieldDecodeEffect message_class json_data field).map (applyEffSt .unset)

/-- Success test on an Except value. -/
def isOkE {α : Type} : Except PyError α → Bool
  | .ok _ => true
  | .error _ => false

/-- Value contributed to the output dict by one encode-loop iteration, at a
given fuel for embedded-message recursion. -/
def fieldEncodeResult (fuel : Nat) (states : List (String × FieldState PyValue))
    (field : FieldDescriptor) : Except PyError PyValue :=
  let value := instGetAttr field states
  if field.label = .LABEL_REPEATED then
    match pyIterate value with
    | .error e => .error e
    | .ok items =>
      match items.mapM (convert_proto_value_at fuel field) with
      | .error e => .error e
      | .ok ws => .ok (.array ws)
  else convert_proto_value_at fuel field value

/-- Agreement of a runtime value with the wire type of its field, the
invariant the protobuf runtime enforces on assignment. -/
def valueWellTyped : FieldType → PyValue → Bool
  | .TYPE_BOOL, .boolean _ => true
  | .TYPE_FLOAT, .floating _ => true
  | .TYPE_INT32, .integer _ => true
  | .TYPE_INT64, .integer _ => true
  | .TYPE_UINT32, .integer _ => true
  | .TYPE_UINT64, .integer _ => true
  | .TYPE_STRING, .string _ => true
  | .TYPE_ENUM, .integer _ => true
  | _, _ => false

/-- Agreement of one field storage slot with its descriptor. -/
def stateWellTyped (field : FieldDescriptor) : FieldState PyValue → Bool
  | .unset => true
  | .scalarSet v => (field.label != .LABEL_REPEATED) && valueWellTyped field.type v
  | .repeatedVals vs =>
    (field.label == .LABEL_REPEATED) && vs.all (valueWellTyped field.type)

/-- Agreement of a whole instance storage with the schema, the invariant the
protobuf runtime enforces through its typed setattr. -/
def instanceWellTyped (cls : MessageClass)
    (states : List (String × FieldState PyValue)) : Bool :=
  cls.fields.all (fun field => stateWellTyped field (lookupState states field.name))

/-- Conformance of a message class to the schema collaborator contract of the
spec: declared defaults agree with the field type, and every enum symbol of
an enum field is exposed as a class attribute bound to its number. -/
def schemaWellFormed (cls : MessageClass) : Bool :=
  cls.fields.all (fun field =>
    (field.type == .TYPE_MESSAGE
      || valueWellTyped field.type (scalarToPy field.default_value)) &&
    (field.type != .TYPE_ENUM
      || field.enum_type.all (fun e =>
           match cls.attrs.lookup e.name with
           | some (.integer k) => k == e.number
           | _ => false)))

/-- Test that every required field of the instance holds a value. -/
def requiredAllSet (cls : MessageClass)
    (states : List (String × FieldState PyValue)) : Bool :=
  cls.fields.all (fun field =>
    match lookupState states field.name with
    | .unset => field.label != .LABEL_REQUIRED
    | _ => true)

/-- Field-for-field equality of two instances of a message class: every field
descriptor reports the same value through instance attribute access. -/
def fieldForFieldEqual (cls : MessageClass) (m m' : MessageInstance) : Prop :=
  ∀ field ∈ cls.fields, instGetAttr field m'.states = instGetAttr field m.states

/-! Concrete fixtures mirroring the schemas of protobuf_json_test.py. -/

/-- Enum value table of the Node state enum of the test data. -/
def nodeEnum : List EnumValueDesc :=
  [⟨"PLANNED", 0⟩, ⟨"AVAILABLE", 1⟩, ⟨"FAILED", 2⟩]

/-- Required string field nodeid of the Node test message. -/
def nodeidField : FieldDescriptor :=
  .mk "nodeid" .TYPE_STRING .LABEL_REQUIRED false (.s "") [] []

/-- Optional enum field state of the Node test message, defaulting to
PLANNED. -/
def stateField : FieldDescriptor :=
  .mk "state" .TYPE_ENUM .LABEL_OPTIONAL true (.i 0) nodeEnum []

/-- Node message class: the nested enum symbols are class attributes, next to
unrelated class attributes such as DESCRIPTOR. -/
def nodeClass : MessageClass :=
  ⟨[nodeidField, stateField],
   [("PLANNED", .integer 0), ("AVAILABLE", .integer 1), ("FAILED", .integer 2),
    ("DESCRIPTOR", .nil)]⟩

/-- Repeated string field notes of the repeated-field test message. -/
def notesField : FieldDescriptor :=
  .mk "notes" .TYPE_STRING .LABEL_REPEATED false (.s "") [] []

/-- Message class of the repeated-field test message. -/
def repeatedClass : MessageClass := ⟨[notesField], []⟩

/-- Optional string field test of the embedded test message, with default
value test. -/
def testField : FieldDescriptor :=
  .mk "test" .TYPE_STRING .LABEL_OPTIONAL true (.s "test") [] []

/-- Message-typed field testmessage of the embedded-message test message. -/
def embeddedField : FieldDescriptor :=
  .mk "testmessage" .TYPE_MESSAGE .LABEL_OPTIONAL false (.s "") [] [testField]

/-- Message class of the embedded-message test message. -/
def embeddedClass : MessageClass := ⟨[embeddedField], []⟩

/-- Schema whose first field is an enum and whose second field is required
without a default, exhibiting the precedence of conversion errors over the
missing-required check. -/
def cexStateField : FieldDescriptor :=
  .mk "state" .TYPE_ENUM .LABEL_OPTIONAL false (.i 0) nodeEnum []

/-- Required string field of the precedence schema. -/
def cexIdField : FieldDescriptor :=
  .mk "id" .TYPE_STRING .LABEL_REQUIRED false (.s "") [] []

/-- Message class of the precedence schema; its attribute namespace is empty,
so no enum symbol resolves. -/
def cexClass : MessageClass := ⟨[cexStateField, cexIdField], []⟩

/-- JSON object holding an unknown enum symbol for state and omitting the
required field id. -/
def cexInput : List (String × PyValue) := [("state", PyValue.string "BAD")]

theorem fieldDecodeStep_eq (message_class : MessageClass)
    (json_data : List (String × PyValue))
    (states : List (String × FieldState PyValue)) (field : FieldDescriptor) :
    fieldDecodeStep message_class json_data states field
      = (fieldDecodeEffect message_class json_data field).map
          (applyEffect states field.name) := by
  unfold fieldDecodeStep fieldDecodeEffect
  rcases hl : json_data.lookup field.name with _ | value
  · by_cases hdef : field.has_default_value <;>
      by_cases hreq : field.label = .LABEL_REQUIRED <;>
        simp [hdef, hreq, Except.map, applyEffect]
  · by_cases hrep : field.label = .LABEL_REPEATED
    · rcases hit : pyIterate value with e | items
      · simp [hrep, hit, Except.map]
      · rcases hm : List.mapM.loop (fun v => convert_json_value field v message_class) items []
          with e | conv
        · simp [hrep, hit, List.mapM, hm, Except.map]
        · simp only [hrep, hit, List.mapM, hm, if_true, Except.map, applyEffect]
          cases hst : lookupState states field.name <;> simp [hst, applyEffSt]
    · rcases hc : convert_json_value field value message_class with e | v <;>
        simp [hrep, hc, Except.map, applyEffect]

/-! Association-list lemmas for the storage and dict operations. -/

theorem exceptBind_error {α β : Type} (e : PyError) (f : α → Except PyError β) :
    (Except.error e >>= f) = Except.error e := rfl

theorem exceptBind_ok {α β : Type} (a : α) (f : α → Except PyError β) :
    (Except.ok a >>= f) = f a := rfl

theorem lookup_map_replace {β : Type} (n : String) (v : β) :
    ∀ l : List (String × β),
    List.lookup n (l.map (fun p => if p.1 = n then (n, v) else p))
      = (List.lookup n l).map (fun _ => v) := by
  intro l
  induction l with
  | nil => rfl
  | cons p rest ih =>
    rcases p with ⟨k, b⟩
    by_cases h : k = n
    · subst h
      simp [List.lookup_cons_self]
    · have h2 : (n == k) = false := beq_false_of_ne (Ne.symm h)
      simp [List.lookup_cons, h, h2, ih]

theorem lookup_map_replace_ne {β : Type} (n m : String) (v : β) (hnm : m ≠ n) :
    ∀ l : List (String × β),
    List.lookup n (l.map (fun p => if p.1 = m then (m, v) else p))
      = List.lookup n l := by
  intro l
  induction l with
  | nil => rfl
  | cons p rest ih =>
    rcases p with ⟨k, b⟩
    by_cases h : k = m
    · subst h
      have h2 : (n == k) = false := beq_false_of_ne (Ne.symm hnm)
      simp [List.lookup_cons, h2, ih]
    · by_cases h3 : k = n
      · subst h3
        simp [List.lookup_cons_self, h]
      · have h4 : (n == k) = false := beq_false_of_ne (Ne.symm h3)
        simp [List.lookup_cons, h, h4, ih]

theorem lookup_append_right {β : Type} (n : String) :
    ∀ l1 l2 : List (String × β), List.lookup n l1 = none →
    List.lookup n (l1 ++ l2) = List.lookup n l2 := by
  intro l1 l2
  induction l1 with
  | nil => intro _; rfl
  | cons p rest ih =>
    rcases p with ⟨k, b⟩
    intro h
    by_cases hk : n = k
    · subst hk
      simp [List.lookup_cons_self] at h
    · have h2 : (n == k) = false := beq_false_of_ne hk
      rw [List.lookup_cons, h2] at h
      simpa [List.lookup_cons, h2] using ih h

theorem lookup_append_left {β : Type} (n : String) (b : β) :
    ∀ l1 l2 : List (String × β), List.lookup n l1 = some b →
    List.lookup n (l1 ++ l2) = some b := by
  intro l1 l2
  induction l1 with
  | nil => intro h; cases h
  | cons p rest ih =>
    rcases p with ⟨k, c⟩
    intro h
    by_cases hk : n = k
    · subst hk
      simp [List.lookup_cons_self] at h ⊢
      exact h
    · have h2 : (n == k) = false := beq_false_of_ne hk
      rw [List.lookup_cons, h2] at h
      simpa [List.lookup_cons, h2] using ih h

theorem lookupState_setState_self (states : List (String × FieldState PyValue))
    (n : String) (st : FieldState PyValue) :
    lookupState (setState states n st) n = st := by
  unfold lookupState setState
  cases hl : List.lookup n states with
  | some b =>
    simp [lookup_map_replace, hl]
  | none =>
    simp only [Option.isSome_none, Bool.false_eq_true, if_false]
    rw [lookup_append_right n states _ hl]
    simp [List.lookup_cons_self]

theorem lookupState_setState_ne (states : List (String × FieldState PyValue))
    (m n : String) (st : FieldState PyValue) (h : m ≠ n) :
    lookupState (setState states m st) n = lookupState states n := by
  unfold lookupState setState
  cases hm : List.lookup m states with
  | some b =>
    simp [lookup_map_replace_ne n m st h]
  | none =>
    simp only [Option.isSome_none, Bool.false_eq_true, if_false]
    cases hn : List.lookup n states with
    | some c => rw [lookup_append_left n c states _ hn]
    | none =>
      rw [lookup_append_right n states _ hn]
      have h2 : (n == m) = false := beq_false_of_ne (Ne.symm h)
      simp [List.lookup_cons, h2]

theorem lookupState_applyEffect_self (states : List (String × FieldState PyValue))
    (n : String) (eff : FieldEffect) :
    lookupState (applyEffect states n eff) n = applyEffSt (lookupState states n) eff := by
  cases eff with
  | keep =>
    show lookupState states n = applyEffSt (lookupState states n) FieldEffect.keep
    cases lookupState states n <;> rfl
  | setTo st =>
    show lookupState (setState states n st) n = _
    rw [lookupState_setState_self]
    cases lookupState states n <;> rfl
  | extendBy vs =>
    show lookupState (setState states n _) n = _
    rw [lookupState_setState_self]

theorem lookupState_applyEffect_ne (states : List (String × FieldState PyValue))
    (m n : String) (eff : FieldEffect) (h : m ≠ n) :
    lookupState (applyEffect states m eff) n = lookupState states n := by
  cases eff with
  | keep => rfl
  | setTo st => simp [applyEffect, lookupState_setState_ne states m n _ h]
  | extendBy vs => simp [applyEffect, lookupState_setState_ne states m n _ h]

/-! Characterization of the decode fold. -/

theorem foldlM_decode_lookup_untouched (mc : MessageClass)
    (jd : List (String × PyValue)) :
    ∀ (fields : List FieldDescriptor) (states final : List (String × FieldState PyValue))
      (n : String),
    (∀ fd ∈ fields, fd.name ≠ n) →
    List.foldlM (fieldDecodeStep mc jd) states fields = .ok final →
    lookupState final n = lookupState states n := by
  intro fields
  induction fields with
  | nil =>
    intro states final n _ h
    simp only [List.foldlM_nil] at h
    cases h
    rfl
  | cons f rest ih =>
    intro states final n hn h
    rw [List.foldlM_cons, fieldDecodeStep_eq] at h
    rcases heff : fieldDecodeEffect mc jd f with e | eff
    · rw [heff] at h
      exact absurd h (by simp [Except.map, exceptBind_error])
    · rw [heff] at h
      simp only [Except.map, exceptBind_ok] at h
      have hrec := ih (applyEffect states f.name eff) final n
        (fun fd' hm => hn fd' (List.mem_cons_of_mem _ hm)) h
      rw [hrec, lookupState_applyEffect_ne _ _ _ _ (hn f (List.mem_cons_self _ _))]

theorem foldlM_decode_ok_lookup (mc : MessageClass) (jd : List (String × PyValue)) :
    ∀ (fields : List FieldDescriptor) (states final : List (String × FieldState PyValue))
      (fd : FieldDescriptor),
    fd ∈ fields → (fields.map FieldDescriptor.name).Nodup →
    List.foldlM (fieldDecodeStep mc jd) states fields = .ok final →
    lookupState states fd.name = .unset →
    fieldDecodeResult mc jd fd = .ok (lookupState final fd.name) := by
  intro fields
  induction fields with
  | nil => intro _ _ fd h; exact absurd h (List.not_mem_nil fd)
  | cons f rest ih =>
    intro states final fd hmem hnodup h hunset
    have hnodup' : f.name ∉ rest.map FieldDescriptor.name ∧
        (rest.map FieldDescriptor.name).Nodup := by
      rw [List.map_cons, List.nodup_cons] at hnodup
      exact hnodup
    rw [List.foldlM_cons, fieldDecodeStep_eq] at h
    rcases heff : fieldDecodeEffect mc jd f with e | eff
    · rw [heff] at h
      exact absurd h (by simp [Except.map, exceptBind_error])
    · rw [heff] at h
      simp only [Except.map, exceptBind_ok] at h
      rcases List.mem_cons.mp hmem with rfl | hmem'
      · have hrestn : ∀ fd' ∈ rest, fd'.name ≠ fd.name := by
          intro fd' hm heq
          exact hnodup'.1 (heq ▸ List.mem_map_of_mem FieldDescriptor.name hm)
        have hfin := foldlM_decode_lookup_untouched mc jd rest _ final fd.name hrestn h
        rw [hfin, lookupState_applyEffect_self, hunset]
        simp [fieldDecodeResult, heff, Except.map]
      · have hne : f.name ≠ fd.name := by
          intro heq
          exact hnodup'.1 (heq ▸ List.mem_map_of_mem FieldDescriptor.name hmem')
        apply ih _ final fd hmem' hnodup'.2 h
        rw [lookupState_applyEffect_ne _ _ _ _ hne, hunset]

theorem foldlM_decode_error_iff (mc : MessageClass) (jd : List (String × PyValue)) :
    ∀ (fields : List FieldDescriptor) (states : List (String × FieldState PyValue))
      (e : PyError),
    List.foldlM (fieldDecodeStep mc jd) states fields = .error e ↔
    ∃ l1 fd l2, fields = l1 ++ fd :: l2 ∧
      (∀ fd' ∈ l1, isOkE (fieldDecodeEffect mc jd fd') = true) ∧
      fieldDecodeEffect mc jd fd = .error e := by
  intro fields
  induction fields with
  | nil =>
    intro states e
    constructor
    · intro h
      simp only [List.foldlM_nil] at h
      cases h
    · rintro ⟨l1, fd, l2, hsplit, -, -⟩
      cases l1 <;> simp at hsplit
  | cons f rest ih =>
    intro states e
    rw [List.foldlM_cons, fieldDecodeStep_eq]
    rcases heff : fieldDecodeEffect mc jd f with e' | eff
    · simp only [Except.map, exceptBind_error]
      constructor
      · intro h
        have he : e' = e := by cases h; rfl
        exact ⟨[], f, rest, rfl, by simp, by rw [heff, he]⟩
      · rintro ⟨l1, fd, l2, hsplit, hok, herr⟩
        cases l1 with
        | nil =>
          simp only [List.nil_append, List.cons.injEq] at hsplit
          obtain ⟨rfl, rfl⟩ := hsplit
          rw [heff] at herr
          cases herr
          rfl
        | cons a l1' =>
          simp only [List.cons_append, List.cons.injEq] at hsplit
          obtain ⟨rfl, -⟩ := hsplit
          have := hok f (List.mem_cons_self _ _)
          rw [heff] at this
          exact absurd this (by simp [isOkE])
    · simp only [Except.map, exceptBind_ok]
      rw [ih]
      constructor
      · rintro ⟨l1, fd, l2, hsplit, hok, herr⟩
        refine ⟨f :: l1, fd, l2, by rw [hsplit]; rfl, ?_, herr⟩
        intro fd' hm
        rcases List.mem_cons.mp hm with rfl | hm'
        · simp [isOkE, heff]
        · exact hok fd' hm'
      · rintro ⟨l1, fd, l2, hsplit, hok, herr⟩
        cases l1 with
        | nil =>
          simp only [List.nil_append, List.cons.injEq] at hsplit
          obtain ⟨rfl, rfl⟩ := hsplit
          rw [heff] at herr
          cases herr
        | cons a l1' =>
          simp only [List.cons_append, List.cons.injEq] at hsplit
          obtain ⟨rfl, hrest⟩ := hsplit
          exact ⟨l1', fd, l2, hrest,
            fun fd' hm => hok fd' (List.mem_cons_of_mem _ hm), herr⟩

theorem foldlM_decode_ok_of_all (mc : MessageClass) (jd : List (String × PyValue)) :
    ∀ (fields : List FieldDescriptor) (states : List (String × FieldState PyValue)),
    (∀ fd ∈ fields, isOkE (fieldDecodeEffect mc jd fd) = true) →
    ∃ final, List.foldlM (fieldDecodeStep mc jd) states fields = .ok final := by
  intro fields
  induction fields with
  | nil => intro states _; exact ⟨states, rfl⟩
  | cons f rest ih =>
    intro states hall
    rw [List.foldlM_cons, fieldDecodeStep_eq]
    rcases heff : fieldDecodeEffect mc jd f with e | eff
    · have := hall f (List.mem_cons_self _ _)
      rw [heff] at this
      exact absurd this (by simp [isOkE])
    · simp only [Except.map, exceptBind_ok]
      exact ih _ (fun fd hm => hall fd (List.mem_cons_of_mem _ hm))

/-! Error taxonomy of the conversion helpers: only the missing-required check
raises JsonDataMissingError. -/

theorem pyInt_not_missing (v : PyValue) (n : String) :
    pyInt v ≠ Except.error (.jsonDataMissing n) := by
  cases v with
  | string s =>
    unfold pyInt
    rcases h : s.toInt? with _ | k <;> simp [h]
  | nil => simp [pyInt]
  | boolean b => simp [pyInt]
  | integer k => simp [pyInt]
  | floating q => simp [pyInt]
  | array xs => simp [pyInt]
  | object kvs => simp [pyInt]
  | message a b => simp [pyInt]

theorem pyFloat_not_missing (v : PyValue) (n : String) :
    pyFloat v ≠ Except.error (.jsonDataMissing n) := by
  cases v with
  | string s =>
    unfold pyFloat
    rcases h : parsePyFloat s with _ | q <;> simp [h]
  | nil => simp [pyFloat]
  | boolean b => simp [pyFloat]
  | integer k => simp [pyFloat]
  | floating q => simp [pyFloat]
  | array xs => simp [pyFloat]
  | object kvs => simp [pyFloat]
  | message a b => simp [pyFloat]

theorem pyUnicode_not_missing (v : PyValue) (n : String) :
    pyUnicode v ≠ Except.error (.jsonDataMissing n) := by
  cases v <;> simp [pyUnicode]

theorem pyIterate_not_missing (v : PyValue) (n : String) :
    pyIterate v ≠ Except.error (.jsonDataMissing n) := by
  cases v <;> simp [pyIterate]

theorem convert_json_value_not_missing (field : FieldDescriptor) (value : PyValue)
    (message_class : MessageClass) (n : String) :
    convert_json_value field value message_class
      ≠ Except.error (.jsonDataMissing n) := by
  unfold convert_json_value
  by_cases he : field.type = .TYPE_ENUM
  · simp only [he, if_true]
    cases value with
    | string s => rcases h : message_class.getattr s with _ | v <;> simp [h]
    | nil => simp
    | boolean b => simp
    | integer k => simp
    | floating q => simp
    | array xs => simp
    | object kvs => simp
    | message a b => simp
  · simp only [he, if_false]
    cases htype : field.type with
    | TYPE_BOOL => simp [TYPE_MAP]
    | TYPE_FLOAT => simp [TYPE_MAP]; exact pyFloat_not_missing value n
    | TYPE_INT32 => simp [TYPE_MAP]; exact pyInt_not_missing value n
    | TYPE_INT64 => simp [TYPE_MAP]; exact pyInt_not_missing value n
    | TYPE_UINT32 => simp [TYPE_MAP]; exact pyInt_not_missing value n
    | TYPE_UINT64 => simp [TYPE_MAP]; exact pyInt_not_missing value n
    | TYPE_STRING => simp [TYPE_MAP]; exact pyUnicode_not_missing value n
    | TYPE_ENUM => exact absurd htype he
    | TYPE_MESSAGE => simp [TYPE_MAP]
    | TYPE_DOUBLE => simp [TYPE_MAP]
    | TYPE_BYTES => simp [TYPE_MAP]

theorem mapM_convert_not_missing (field : FieldDescriptor)
    (message_class : MessageClass) (n : String) :
    ∀ items : List PyValue,
    items.mapM (fun v => convert_json_value field v message_class)
      ≠ Except.error (.jsonDataMissing n) := by
  intro items
  induction items with
  | nil =>
    intro h
    cases h
  | cons v rest ih =>
    rw [List.mapM_cons]
    cases hc : convert_json_value field v message_class with
    | error e =>
      have hne := convert_json_value_not_missing field v message_class n
      rw [hc] at hne
      simpa [exceptBind_error] using hne
    | ok w =>
      rw [exceptBind_ok]
      cases hm : rest.mapM (fun v => convert_json_value field v message_class) with
      | error e =>
        have := ih
        rw [hm] at this
        simpa [exceptBind_error] using this
      | ok ws => simp [exceptBind_ok]

theorem fieldDecodeEffect_missing_iff (mc : MessageClass)
    (jd : List (String × PyValue)) (fd : FieldDescriptor) (n : String) :
    fieldDecodeEffect mc jd fd = .error (.jsonDataMissing n) ↔
    (fd.name = n ∧ List.lookup fd.name jd = none ∧
     fd.has_default_value = false ∧ fd.label = .LABEL_REQUIRED) := by
  unfold fieldDecodeEffect
  cases hl : List.lookup fd.name jd with
  | some value =>
    by_cases hrep : fd.label = .LABEL_REPEATED
    · simp only [hrep, if_true]
      constructor
      · rcases hi : pyIterate value with e | items
        · simp only [hi]
          intro h
          injection h with h2
          subst h2
          exact absurd hi (pyIterate_not_missing value n)
        · simp only [hi]
          rcases hm2 : items.mapM (fun v => convert_json_value fd v mc) with e | conv
          · simp only [hm2]
            intro h
            injection h with h2
            subst h2
            exact absurd hm2 (mapM_convert_not_missing fd mc n items)
          · simp only [hm2]
            intro h
            cases h
      · rintro ⟨-, hnone, -, -⟩
        cases hnone
    · simp only [hrep, if_false]
      constructor
      · rcases hc : convert_json_value fd value mc with e | v
        · simp only [hc]
          intro h
          injection h with h2
          subst h2
          exact absurd hc (convert_json_value_not_missing fd value mc n)
        · simp only [hc]
          intro h
          cases h
      · rintro ⟨-, hnone, -, -⟩
        cases hnone
  | none =>
    by_cases hdef : fd.has_default_value
    · simp [hdef]
    · rw [Bool.not_eq_true] at hdef
      by_cases hreq : fd.label = .LABEL_REQUIRED
      · simp [hdef, hreq]
      · simp [hdef, hreq]

theorem json2proto_data_ok_fold (mc : MessageClass) (jd : List (String × PyValue))
    (m : MessageInstance)
    (h : json2proto_data (.object jd) mc = .ok m) :
    List.foldlM (fieldDecodeStep mc jd) [] mc.fields = .ok m.states ∧ m.cls = mc := by
  simp only [json2proto_data] at h
  rcases hf : List.foldlM (fieldDecodeStep mc jd) [] mc.fields with e | sts
  · rw [hf] at h
    simp [Except.map] at h
  · rw [hf] at h
    simp only [Except.map, Except.ok.injEq] at h
    rw [← h]
    exact ⟨rfl, rfl⟩

theorem schemaWellFormed_default (cls : MessageClass) (fd : FieldDescriptor)
    (hwf : schemaWellFormed cls = true) (hmem : fd ∈ cls.fields)
    (hnomsg : fd.type ≠ .TYPE_MESSAGE) :
    valueWellTyped fd.type (scalarToPy fd.default_value) = true := by
  unfold schemaWellFormed at hwf
  rw [List.all_eq_true] at hwf
  have h := hwf fd hmem
  rw [Bool.and_eq_true] at h
  rcases h with ⟨h1, -⟩
  rw [Bool.or_eq_true] at h1
  rcases h1 with h1 | h1
  · exact absurd (by simpa using h1) hnomsg
  · exact h1

theorem schemaWellFormed_enum_attr (cls : MessageClass) (fd : FieldDescriptor)
    (e : EnumValueDesc) (hwf : schemaWellFormed cls = true) (hmem : fd ∈ cls.fields)
    (henum : fd.type = .TYPE_ENUM) (he : e ∈ fd.enum_type) :
    cls.getattr e.name = some (.integer e.number) := by
  unfold schemaWellFormed at hwf
  rw [List.all_eq_true] at hwf
  have h := hwf fd hmem
  rw [Bool.and_eq_true] at h
  rcases h with ⟨-, h2⟩
  rw [Bool.or_eq_true] at h2
  rcases h2 with h2 | h2
  · rw [henum] at h2
    simp at h2
  · rw [List.all_eq_true] at h2
    have h3 := h2 e he
    unfold MessageClass.getattr
    rcases hl : List.lookup e.name cls.attrs with _ | v
    · simp only [hl] at h3
      cases h3
    · simp only [hl] at h3
      cases v with
      | integer k =>
        have hk : k = e.number := by simpa using h3
        rw [hk]
      | nil => cases h3
      | boolean b => cases h3
      | floating q => cases h3
      | string s2 => cases h3
      | array xs => cases h3
      | object kvs => cases h3
      | message a b => cases h3

/-- C2 (amended): json2proto fails with JsonDataMissingError naming n exactly
when some required field named n, absent from the JSON object and without a
default, is reached with every field before it (in schema order) converting
without error; the error then names the first such field, and a required
field that has a default never triggers it. -/
theorem missing_required_error_iff (message_class : MessageClass)
    (json_data : List (String × PyValue)) (n : String) :
    json2proto_data (.object json_data) message_class
        = .error (.jsonDataMissing n) ↔
    ∃ l1 field l2, message_class.fields = l1 ++ field :: l2 ∧
      field.name = n ∧ List.lookup field.name json_data = none ∧
      field.has_default_value = false ∧ field.label = .LABEL_REQUIRED ∧
      ∀ fd ∈ l1, isOkE (fieldDecodeEffect message_class json_data fd) = true := by
  have hmap : json2proto_data (.object json_data) message_class
      = .error (.jsonDataMissing n) ↔
      List.foldlM (fieldDecodeStep message_class json_data) [] message_class.fields
        = .error (.jsonDataMissing n) := by
    simp only [json2proto_data]
    rcases hf : List.foldlM (fieldDecodeStep message_class json_data) []
        message_class.fields with e | sts
    · simp [Except.map]
    · simp [Except.map]
  rw [hmap, foldlM_decode_error_iff]
  constructor
  · rintro ⟨l1, fd, l2, hsplit, hok, herr⟩
    rw [fieldDecodeEffect_missing_iff] at herr
    exact ⟨l1, fd, l2, hsplit, herr.1, herr.2.1, herr.2.2.1, herr.2.2.2, hok⟩
  · rintro ⟨l1, fd, l2, hsplit, hname, hnone, hdef, hreq, hok⟩
    exact ⟨l1, fd, l2, hsplit, hok,
      (fieldDecodeEffect_missing_iff _ _ _ _).mpr ⟨hname, hnone, hdef, hreq⟩⟩

/-- C2 (counterexample): a JSON object whose enum field holds an unknown
symbol while a required no-default field is also absent makes json2proto
raise ProtoEnumValueNotFoundError, not JsonDataMissingError, because the
conversion error on the earlier field preempts the missing-required check. -/
theorem missing_required_preempted :
    json2proto_data (.object cexInput) cexClass
        = .error (.protoEnumValueNotFound "BAD")
    ∧ cexIdField ∈ cexClass.fields
    ∧ cexIdField.label = .LABEL_REQUIRED
    ∧ cexIdField.has_default_value = false
    ∧ List.lookup cexIdField.name cexInput = none := by
  refine ⟨rfl, ?_, rfl, rfl, rfl⟩
  show cexIdField ∈ [cexStateField, cexIdField]
  exact List.Mem.tail _ (List.Mem.head _)

/-- C5: a field whose type is message raises UnsupportedFieldTypeError on the
decode-direction value conversion, whatever the JSON value. -/
theorem unsupported_embedded_decode (field : FieldDescriptor) (value : PyValue)
    (message_class : MessageClass) (h : field.type = .TYPE_MESSAGE) :
    convert_json_value field value message_class
      = .error (.unsupportedFieldType .TYPE_MESSAGE) := by
  unfold convert_json_value
  rw [h]
  simp [TYPE_MAP]

/-- C5 witness. -/
theorem unsupported_embedded_decode_witness :
    convert_json_value embeddedField (.object [("test", .string "test")]) embeddedClass
      = .error (.unsupportedFieldType .TYPE_MESSAGE) :=
  unsupported_embedded_decode embeddedField (.object [("test", .string "test")])
    embeddedClass rfl

/-- C9: decode-direction enum conversion resolves the JSON string in the whole
class attribute namespace, so any class attribute name is accepted, without
ProtoEnumValueNotFoundError, and its attribute value returned, even when the
string names no symbol of the enum of the field. -/
theorem enum_decode_class_namespace (field : FieldDescriptor) (s : String)
    (v : PyValue) (message_class : MessageClass)
    (henum : field.type = .TYPE_ENUM)
    (hattr : message_class.getattr s = some v)
    (_hnotsym : (field.enum_type.map EnumValueDesc.name).contains s = false) :
    convert_json_value field (.string s) message_class = .ok v := by
  unfold convert_json_value
  simp [henum, hattr]

/-- C9 witness: DESCRIPTOR is a class attribute, not an enum symbol. -/
theorem enum_decode_class_namespace_witness :
    convert_json_value stateField (.string "DESCRIPTOR") nodeClass = .ok .nil :=
  enum_decode_class_namespace stateField "DESCRIPTOR" .nil nodeClass rfl rfl rfl

/-- C4: enum conversion fails with ProtoEnumValueNotFoundError on decode
exactly when the symbolic name is no attribute of the message class, and on
encode exactly when the integer has no entry in the number table of the enum;
on success decode returns the attribute value bound to the name (the integer,
for a conforming class) and encode returns the name of the entry. -/
theorem enum_error_taxonomy (field : FieldDescriptor) (message_class : MessageClass)
    (s : String) (n : Int)
    (msgEnc : List FieldDescriptor → List (String × FieldState PyValue) →
      Except PyError (List (String × PyValue)))
    (henum : field.type = .TYPE_ENUM) :
    (convert_json_value field (.string s) message_class
        = .error (.protoEnumValueNotFound s)
      ↔ message_class.getattr s = none)
    ∧ (∀ v, message_class.getattr s = some v →
        convert_json_value field (.string s) message_class = .ok v)
    ∧ (convert_proto_value msgEnc field (.integer n)
        = .error (.protoEnumValueNotFound (toString n))
      ↔ field.enum_type.find? (fun e => e.number == n) = none)
    ∧ (∀ e, field.enum_type.find? (fun e => e.number == n) = some e →
        convert_proto_value msgEnc field (.integer n) = .ok (.string e.name))
    ∧ (∀ e, schemaWellFormed message_class = true → field ∈ message_class.fields →
        e ∈ field.enum_type → e.name = s →
        convert_json_value field (.string s) message_class
          = .ok (.integer e.number)) := by
  refine ⟨?_, ?_, ?_, ?_, ?_⟩
  · unfold convert_json_value
    rcases hl : message_class.getattr s with _ | v <;> simp [henum, hl]
  · intro v hv
    unfold convert_json_value
    simp [henum, hv]
  · unfold convert_proto_value values_by_number_get
    rcases hf : field.enum_type.find? (fun e => e.number == n) with _ | e <;>
      simp [henum, hf]
  · intro e he
    unfold convert_proto_value values_by_number_get
    simp [henum, he]
  · intro e hwf2 hmem2 he hename
    have hattr := schemaWellFormed_enum_attr message_class field e hwf2 hmem2 henum he
    rw [hename] at hattr
    unfold convert_json_value
    rw [if_pos henum]
    simp [hattr]

/-- C4 witness: the Node state enum, an unknown symbol and the out-of-range
number 20 of the test suite. -/
theorem enum_error_taxonomy_witness :
    ((convert_json_value stateField (.string "WROONG") nodeClass
        = .error (.protoEnumValueNotFound "WROONG")
      ↔ nodeClass.getattr "WROONG" = none)
    ∧ (∀ v, nodeClass.getattr "WROONG" = some v →
        convert_json_value stateField (.string "WROONG") nodeClass = .ok v)
    ∧ (convert_proto_value (fun _ _ => .error .recursionLimit) stateField (.integer 20)
        = .error (.protoEnumValueNotFound (toString (20 : Int)))
      ↔ stateField.enum_type.find? (fun e => e.number == (20 : Int)) = none)
    ∧ (∀ e, stateField.enum_type.find? (fun e => e.number == (20 : Int)) = some e →
        convert_proto_value (fun _ _ => .error .recursionLimit) stateField (.integer 20)
          = .ok (.string e.name))
    ∧ (∀ e, schemaWellFormed nodeClass = true → stateField ∈ nodeClass.fields →
        e ∈ stateField.enum_type → e.name = "WROONG" →
        convert_json_value stateField (.string "WROONG") nodeClass
          = .ok (.integer e.number))) :=
  enum_error_taxonomy stateField nodeClass "WROONG" 20
    (fun _ _ => .error .recursionLimit) rfl

theorem lookup_filter_keep {β : Type} (n : String) (p : String × β → Bool)
    (hp : ∀ b, p (n, b) = true) :
    ∀ l : List (String × β), List.lookup n (l.filter p) = List.lookup n l := by
  intro l
  induction l with
  | nil => rfl
  | cons kv rest ih =>
    rcases kv with ⟨k, b⟩
    by_cases hk : k = n
    · subst hk
      rw [List.filter_cons_of_pos (hp b)]
      simp [List.lookup_cons_self]
    · have h2 : (n == k) = false := beq_false_of_ne (Ne.symm hk)
      by_cases hpk : p (k, b) = true
      · rw [List.filter_cons_of_pos hpk]
        simp [List.lookup_cons, h2, ih]
      · rw [List.filter_cons_of_neg (by simpa using hpk)]
        simp [List.lookup_cons, h2, ih]

theorem fieldDecodeStep_congr (mc : MessageClass)
    (jd jd' : List (String × PyValue))
    (states : List (String × FieldState PyValue)) (field : FieldDescriptor)
    (h : List.lookup field.name jd = List.lookup field.name jd') :
    fieldDecodeStep mc jd states field = fieldDecodeStep mc jd' states field := by
  unfold fieldDecodeStep
  rw [h]

theorem foldlM_decode_congr (mc : MessageClass)
    (jd jd' : List (String × PyValue)) :
    ∀ (fields : List FieldDescriptor) (states : List (String × FieldState PyValue)),
    (∀ fd ∈ fields, List.lookup fd.name jd = List.lookup fd.name jd') →
    List.foldlM (fieldDecodeStep mc jd) states fields
      = List.foldlM (fieldDecodeStep mc jd') states fields := by
  intro fields
  induction fields with
  | nil => intro states _; rfl
  | cons f rest ih =>
    intro states hall
    rw [List.foldlM_cons, List.foldlM_cons,
      fieldDecodeStep_congr mc jd jd' states f (hall f (List.mem_cons_self _ _))]
    cases h' : fieldDecodeStep mc jd' states f with
    | error e => simp [exceptBind_error]
    | ok s' =>
      simp only [exceptBind_ok]
      exact ih s' (fun fd hm => hall fd (List.mem_cons_of_mem _ hm))

/-- C8: JSON keys matching no field descriptor are silently ignored: decoding
an object equals decoding its restriction to the keys known to the schema,
so unknown keys raise no error and leave no trace on the result. -/
theorem unknown_keys_ignored (message_class : MessageClass)
    (json_data : List (String × PyValue)) :
    json2proto_data (.object json_data) message_class
      = json2proto_data
          (.object (json_data.filter
            (fun kv => message_class.fields.any (fun fd => fd.name == kv.1))))
          message_class := by
  have hlk : ∀ fd ∈ message_class.fields,
      List.lookup fd.name json_data
        = List.lookup fd.name (json_data.filter
            (fun kv => message_class.fields.any (fun fd => fd.name == kv.1))) := by
    intro fd hmem
    exact (lookup_filter_keep fd.name _
      (fun b => List.any_eq_true.mpr ⟨fd, hmem, by simp⟩) json_data).symm
  simp only [json2proto_data]
  rw [foldlM_decode_congr message_class json_data _ message_class.fields [] hlk]

theorem mapM_convert_chars (field : FieldDescriptor) (mc : MessageClass)
    (hstr : field.type = .TYPE_STRING) :
    ∀ l : List Char,
    (l.map (fun c => PyValue.string (String.singleton c))).mapM
        (fun v => convert_json_value field v mc)
      = .ok (l.map (fun c => PyValue.string (String.singleton c))) := by
  have hone : ∀ x : String, convert_json_value field (.string x) mc = .ok (.string x) := by
    intro x
    unfold convert_json_value
    simp [hstr, TYPE_MAP, pyUnicode]
  intro l
  induction l with
  | nil => rfl
  | cons c rest ih =>
    rw [List.map_cons, List.mapM_cons]
    simp only [hone, ih, exceptBind_ok]
    rfl

/-- C10: the repeated-field decode branch iterates whatever JSON value is
present; for a string value each character becomes one element of the
repeated field instead of an error being raised. -/
theorem repeated_decode_iterates_string (message_class : MessageClass)
    (json_data : List (String × PyValue)) (field : FieldDescriptor)
    (m : MessageInstance) (s : String)
    (hmem : field ∈ message_class.fields)
    (hnodup : (message_class.fields.map FieldDescriptor.name).Nodup)
    (hrep : field.label = .LABEL_REPEATED)
    (hstr : field.type = .TYPE_STRING)
    (hlook : List.lookup field.name json_data = some (.string s))
    (hok : json2proto_data (.object json_data) message_class = .ok m) :
    lookupState m.states field.name
      = .repeatedVals (s.data.map (fun c => .string (String.singleton c))) := by
  obtain ⟨hfold, -⟩ := json2proto_data_ok_fold _ _ _ hok
  have hres := foldlM_decode_ok_lookup message_class json_data message_class.fields []
    m.states field hmem hnodup hfold rfl
  unfold fieldDecodeResult fieldDecodeEffect at hres
  rw [hlook] at hres
  simp only [hrep, if_true, pyIterate] at hres
  rw [mapM_convert_chars field message_class hstr] at hres
  simp only [Except.map] at hres
  injection hres with h2
  rw [← h2]
  rfl

/-- C10 witness: a two-character string under the repeated notes field. -/
theorem repeated_decode_iterates_string_witness :
    lookupState [("notes", FieldState.repeatedVals
        [PyValue.string "a", PyValue.string "b"])] "notes"
      = .repeatedVals
          ("ab".data.map (fun c => PyValue.string (String.singleton c))) :=
  repeated_decode_iterates_string repeatedClass [("notes", .string "ab")]
    notesField
    ⟨repeatedClass, [("notes", .repeatedVals [.string "a", .string "b"])]⟩
    "ab" (List.Mem.head _) (by decide) rfl rfl rfl rfl

/-- C3: a field absent from the JSON object whose descriptor declares a
default is explicitly assigned that default, and the resulting field value
equals the one produced when the input instead carries a value converting to
that default. -/
theorem default_materialization (message_class : MessageClass)
    (json_data : List (String × PyValue)) (field : FieldDescriptor) (v : PyValue)
    (m1 m2 : MessageInstance)
    (hmem : field ∈ message_class.fields)
    (hnodup : (message_class.fields.map FieldDescriptor.name).Nodup)
    (hdef : field.has_default_value = true)
    (hnrep : field.label ≠ .LABEL_REPEATED)
    (habsent : List.lookup field.name json_data = none)
    (hconv : convert_json_value field v message_class
      = .ok (scalarToPy field.default_value))
    (h1 : json2proto_data (.object json_data) message_class = .ok m1)
    (h2 : json2proto_data (.object ((field.name, v) :: json_data)) message_class
      = .ok m2) :
    lookupState m1.states field.name = .scalarSet (scalarToPy field.default_value)
    ∧ instGetAttr field m1.states = instGetAttr field m2.states := by
  obtain ⟨hfold1, -⟩ := json2proto_data_ok_fold _ _ _ h1
  obtain ⟨hfold2, -⟩ := json2proto_data_ok_fold _ _ _ h2
  have hres1 := foldlM_decode_ok_lookup message_class json_data message_class.fields []
    m1.states field hmem hnodup hfold1 rfl
  have hres2 := foldlM_decode_ok_lookup message_class ((field.name, v) :: json_data)
    message_class.fields [] m2.states field hmem hnodup hfold2 rfl
  unfold fieldDecodeResult fieldDecodeEffect at hres1 hres2
  rw [habsent] at hres1
  simp only [hdef, if_true, Except.map] at hres1
  rw [List.lookup_cons_self] at hres2
  simp only [if_neg hnrep, hconv, Except.map] at hres2
  injection hres1 with ha
  injection hres2 with hb
  refine ⟨?_, ?_⟩
  · rw [← ha]
    rfl
  · unfold instGetAttr
    rw [← ha, ← hb]

/-- C3 witness: the state field of Node, absent in one input and set to the
symbol of its default in the other. -/
theorem default_materialization_witness :
    lookupState [("nodeid", FieldState.scalarSet (PyValue.string "h")),
        ("state", FieldState.scalarSet (PyValue.integer 0))] "state"
      = .scalarSet (scalarToPy stateField.default_value)
    ∧ instGetAttr stateField
        [("nodeid", FieldState.scalarSet (PyValue.string "h")),
         ("state", FieldState.scalarSet (PyValue.integer 0))]
      = instGetAttr stateField
          [("nodeid", FieldState.scalarSet (PyValue.string "h")),
           ("state", FieldState.scalarSet (PyValue.integer 0))] :=
  default_materialization nodeClass [("nodeid", .string "h")] stateField
    (.string "PLANNED")
    ⟨nodeClass, [("nodeid", .scalarSet (.string "h")),
                 ("state", .scalarSet (.integer 0))]⟩
    ⟨nodeClass, [("nodeid", .scalarSet (.string "h")),
                 ("state", .scalarSet (.integer 0))]⟩
    (List.Mem.tail _ (List.Mem.head _)) (by decide) rfl (by decide) rfl rfl rfl rfl

/-! Characterization of the encode fold. -/

theorem lookup_dictInsert_ne (kvs : List (String × PyValue)) (k n : String)
    (v : PyValue) (h : k ≠ n) :
    List.lookup n (dictInsert kvs k v) = List.lookup n kvs := by
  unfold dictInsert
  cases hm : List.lookup k kvs with
  | some b => simp [lookup_map_replace_ne n k v h]
  | none =>
    simp only [Option.isSome_none, Bool.false_eq_true, if_false]
    cases hn : List.lookup n kvs with
    | some c => rw [lookup_append_left n c kvs _ hn]
    | none =>
      rw [lookup_append_right n kvs _ hn]
      have h2 : (n == k) = false := beq_false_of_ne (Ne.symm h)
      simp [List.lookup_cons, h2]

theorem dictInsert_fresh (kvs : List (String × PyValue)) (k : String) (v : PyValue)
    (h : List.lookup k kvs = none) :
    dictInsert kvs k v = kvs ++ [(k, v)] := by
  unfold dictInsert
  rw [h]
  rfl

theorem proto2json_fields_cons (fuel : Nat)
    (states : List (String × FieldState PyValue)) (acc : List (String × PyValue))
    (field : FieldDescriptor) (rest : List FieldDescriptor) :
    proto2json_fields (fuel + 1) states acc (field :: rest)
      = match fieldEncodeResult fuel states field with
        | .error e => .error e
        | .ok w => proto2json_fields fuel states (dictInsert acc field.name w) rest := by
  conv_lhs => rw [proto2json_fields]
  unfold fieldEncodeResult convert_proto_value_at
  by_cases hrep : field.label = .LABEL_REPEATED
  · simp only [hrep, if_true]
    rcases hit : pyIterate (instGetAttr field states) with e | items
    · simp only [hit]
    · simp only [hit]
      rcases hm : items.mapM
          (convert_proto_value (fun mf ms => proto2json_fields fuel ms [] mf) field)
          with e | ws
      · simp only [hm]
      · simp only [hm]
  · simp only [hrep, if_false]

theorem proto2json_fields_lookup_untouched :
    ∀ (fields : List FieldDescriptor) (fuel : Nat)
      (states : List (String × FieldState PyValue))
      (acc out : List (String × PyValue)) (n : String),
    (∀ fd ∈ fields, fd.name ≠ n) →
    proto2json_fields fuel states acc fields = .ok out →
    List.lookup n out = List.lookup n acc := by
  intro fields
  induction fields with
  | nil =>
    intro fuel states acc out n _ h
    cases fuel with
    | zero => cases h
    | succ fuel2 =>
      rw [proto2json_fields] at h
      injection h with h2
      rw [← h2]
  | cons f rest ih =>
    intro fuel states acc out n hn h
    cases fuel with
    | zero => cases h
    | succ fuel2 =>
      rw [proto2json_fields_cons] at h
      rcases hw : fieldEncodeResult fuel2 states f with e | w
      · rw [hw] at h
        cases h
      · rw [hw] at h
        have hrec := ih fuel2 states (dictInsert acc f.name w) out n
          (fun fd hm => hn fd (List.mem_cons_of_mem _ hm)) h
        rw [hrec, lookup_dictInsert_ne acc f.name n w (hn f (List.mem_cons_self _ _))]

theorem proto2json_fields_ok_shape :
    ∀ (fields : List FieldDescriptor) (fuel : Nat)
      (states : List (String × FieldState PyValue))
      (acc out : List (String × PyValue)),
    (fields.map FieldDescriptor.name).Nodup →
    (∀ fd ∈ fields, List.lookup fd.name acc = none) →
    proto2json_fields fuel states acc fields = .ok out →
    out.map Prod.fst = acc.map Prod.fst ++ fields.map FieldDescriptor.name
    ∧ ∀ fd ∈ fields, ∃ fuel2 w, fieldEncodeResult fuel2 states fd = .ok w
        ∧ List.lookup fd.name out = some w := by
  intro fields
  induction fields with
  | nil =>
    intro fuel states acc out _ _ h
    cases fuel with
    | zero => cases h
    | succ fuel2 =>
      rw [proto2json_fields] at h
      injection h with h2
      subst h2
      refine ⟨by simp, ?_⟩
      intro fd hm
      exact absurd hm (List.not_mem_nil fd)
  | cons f rest ih =>
    intro fuel states acc out hnodup hfresh h
    have hnodup' : f.name ∉ rest.map FieldDescriptor.name ∧
        (rest.map FieldDescriptor.name).Nodup := by
      rw [List.map_cons, List.nodup_cons] at hnodup
      exact hnodup
    cases fuel with
    | zero => cases h
    | succ fuel2 =>
      rw [proto2json_fields_cons] at h
      rcases hw : fieldEncodeResult fuel2 states f with e | w
      · rw [hw] at h
        cases h
      · rw [hw] at h
        have h2 : proto2json_fields fuel2 states (dictInsert acc f.name w) rest
            = Except.ok out := h
        rw [dictInsert_fresh acc f.name w (hfresh f (List.mem_cons_self _ _))] at h2
        have hfresh' : ∀ fd ∈ rest, List.lookup fd.name (acc ++ [(f.name, w)]) = none := by
          intro fd hm
          have hne : fd.name ≠ f.name := by
            intro heq
            exact hnodup'.1 (heq ▸ List.mem_map_of_mem FieldDescriptor.name hm)
          rw [lookup_append_right fd.name acc _ (hfresh fd (List.mem_cons_of_mem _ hm))]
          have hb : (fd.name == f.name) = false := beq_false_of_ne hne
          simp [List.lookup_cons, hb]
        obtain ⟨hkeys, hlkp⟩ := ih fuel2 states (acc ++ [(f.name, w)]) out hnodup'.2 hfresh' h2
        constructor
        · rw [hkeys]
          simp
        · intro fd hm
          rcases List.mem_cons.mp hm with rfl | hm'
          · refine ⟨fuel2, w, hw, ?_⟩
            have huntouched := proto2json_fields_lookup_untouched rest fuel2 states
              (acc ++ [(fd.name, w)]) out fd.name
              (fun fd' hm' heq =>
                hnodup'.1 (heq ▸ List.mem_map_of_mem FieldDescriptor.name hm')) h2
            rw [huntouched,
              lookup_append_right fd.name acc _ (hfresh fd (List.mem_cons_self _ _))]
            exact List.lookup_cons_self
          · exact hlkp fd hm'

theorem mapM_ok_forall2 {α β : Type} (f : α → Except PyError β) :
    ∀ (l : List α) (res : List β), l.mapM f = .ok res →
    List.Forall₂ (fun v w => f v = .ok w) l res := by
  intro l
  induction l with
  | nil =>
    intro res h
    rw [List.mapM_nil] at h
    injection h with h2
    subst h2
    exact List.Forall₂.nil
  | cons a l ih =>
    intro res h
    rw [List.mapM_cons] at h
    rcases hf : f a with e | b
    · rw [hf, exceptBind_error] at h
      cases h
    · rw [hf, exceptBind_ok] at h
      rcases hm : l.mapM f with e | bs
      · rw [hm, exceptBind_error] at h
        cases h
      · rw [hm, exceptBind_ok] at h
        injection h with h2
        subst h2
        exact List.Forall₂.cons hf (ih bs hm)

theorem forall2_mapM_ok {α β : Type} (f : β → Except PyError α) :
    ∀ (vs : List α) (ws : List β),
    List.Forall₂ (fun v w => f w = .ok v) vs ws → ws.mapM f = .ok vs := by
  intro vs ws h
  induction h with
  | nil => rfl
  | cons hvw hrest ih =>
    rw [List.mapM_cons, hvw, exceptBind_ok, ih, exceptBind_ok]
    rfl

/-! Schema conformance extraction and value-level roundtrip. -/

theorem convert_json_value_welltyped_fix (cls : MessageClass)
    (field : FieldDescriptor) (v : PyValue)
    (hne : field.type ≠ .TYPE_ENUM)
    (hty : valueWellTyped field.type v = true) :
    convert_json_value field v cls = .ok v := by
  unfold convert_json_value
  rw [if_neg hne]
  cases htype : field.type <;> rw [htype] at hty <;> cases v <;>
    simp_all [valueWellTyped, TYPE_MAP, pyInt, pyFloat, pyUnicode, pyTruthy]

theorem roundtrip_passthrough (cls : MessageClass) (field : FieldDescriptor)
    (cb : List FieldDescriptor → List (String × FieldState PyValue) →
      Except PyError (List (String × PyValue)))
    (v w : PyValue)
    (htyin : (TYPE_MAP field.type).isSome = true)
    (hne : field.type ≠ .TYPE_ENUM)
    (hcast : convert_json_value field v cls = .ok v)
    (henc : convert_proto_value cb field v = .ok w) :
    convert_json_value field w cls = .ok v := by
  unfold convert_proto_value at henc
  rw [if_neg hne, if_pos htyin] at henc
  injection henc with hw
  rw [← hw]
  exact hcast

theorem convert_proto_enum_ok
    (cb : List FieldDescriptor → List (String × FieldState PyValue) →
      Except PyError (List (String × PyValue)))
    (field : FieldDescriptor) (k : Int) (w : PyValue)
    (htype : field.type = .TYPE_ENUM)
    (henc : convert_proto_value cb field (.integer k) = .ok w) :
    ∃ e, field.enum_type.find? (fun x => x.number == k) = some e
      ∧ w = .string e.name ∧ e.number = k := by
  unfold convert_proto_value values_by_number_get at henc
  rcases hf : field.enum_type.find? (fun x => x.number == k) with _ | e
  · simp [htype, hf] at henc
  · refine ⟨e, hf, ?_, ?_⟩
    · simp only [htype, hf, if_pos] at henc
      simp [hf] at henc
      exact henc.symm
    · have hp := List.find?_some hf
      exact eq_of_beq (by simpa using hp)

theorem convert_value_roundtrip (cls : MessageClass) (field : FieldDescriptor)
    (cb : List FieldDescriptor → List (String × FieldState PyValue) →
      Except PyError (List (String × PyValue)))
    (v w : PyValue)
    (hmem : field ∈ cls.fields)
    (hwf : schemaWellFormed cls = true)
    (hnomsg : field.type ≠ .TYPE_MESSAGE)
    (hty : valueWellTyped field.type v = true)
    (henc : convert_proto_value cb field v = .ok w) :
    convert_json_value field w cls = .ok v := by
  by_cases henum : field.type = .TYPE_ENUM
  · rw [henum] at hty
    cases v with
    | integer k =>
      obtain ⟨e, hf, hw, hek⟩ := convert_proto_enum_ok cb field k w henum henc
      subst hw
      have he : e ∈ field.enum_type := List.mem_of_find?_eq_some hf
      have hattr := schemaWellFormed_enum_attr cls field e hwf hmem henum he
      unfold convert_json_value
      rw [if_pos henum]
      simp [hattr, hek]
    | nil => simp [valueWellTyped] at hty
    | boolean b => simp [valueWellTyped] at hty
    | floating q => simp [valueWellTyped] at hty
    | string s => simp [valueWellTyped] at hty
    | array xs => simp [valueWellTyped] at hty
    | object kvs => simp [valueWellTyped] at hty
    | message a b => simp [valueWellTyped] at hty
  · have hcast := convert_json_value_welltyped_fix cls field v henum hty
    have hmap : (TYPE_MAP field.type).isSome = true := by
      cases htype : field.type with
      | TYPE_BOOL => rfl
      | TYPE_FLOAT => rfl
      | TYPE_INT32 => rfl
      | TYPE_INT64 => rfl
      | TYPE_UINT32 => rfl
      | TYPE_UINT64 => rfl
      | TYPE_STRING => rfl
      | TYPE_ENUM => exact absurd htype henum
      | TYPE_MESSAGE => exact absurd htype hnomsg
      | TYPE_DOUBLE =>
        rw [htype] at hty
        cases v <;> simp [valueWellTyped] at hty
      | TYPE_BYTES =>
        rw [htype] at hty
        cases v <;> simp [valueWellTyped] at hty
    exact roundtrip_passthrough cls field cb v w hmap henum hcast henc

theorem fieldDecodeEffect_ok_of_result (mc : MessageClass)
    (kvs : List (String × PyValue)) (fd : FieldDescriptor) (st : FieldState PyValue)
    (h : fieldDecodeResult mc kvs fd = .ok st) :
    isOkE (fieldDecodeEffect mc kvs fd) = true := by
  unfold fieldDecodeResult at h
  rcases he : fieldDecodeEffect mc kvs fd with e | eff
  · rw [he] at h
    cases h
  · rfl

/-- C6: the encoded output of a message instance carries one key per field
descriptor of its type, none omitted, in field-descriptor order, and for a
repeated field the output array is the order-preserving elementwise
conversion of the stored element list. -/
theorem encode_output_shape (fuel : Nat) (m : MessageInstance)
    (out : List (String × PyValue))
    (hnodup : (m.cls.fields.map FieldDescriptor.name).Nodup)
    (henc : proto2json_dict fuel m = .ok out) :
    out.map Prod.fst = m.cls.fields.map FieldDescriptor.name
    ∧ ∀ field ∈ m.cls.fields, field.label = .LABEL_REPEATED →
        ∃ fuel2 vs ws, pyIterate (instGetAttr field m.states) = .ok vs
          ∧ List.Forall₂ (fun v w => convert_proto_value_at fuel2 field v = .ok w) vs ws
          ∧ List.lookup field.name out = some (.array ws) := by
  unfold proto2json_dict at henc
  obtain ⟨hkeys, hlkp⟩ := proto2json_fields_ok_shape m.cls.fields fuel m.states [] out
    hnodup (fun fd _ => rfl) henc
  refine ⟨by simpa using hkeys, ?_⟩
  intro field hmem hrep
  obtain ⟨fuel2, w, hw, hlook⟩ := hlkp field hmem
  unfold fieldEncodeResult at hw
  rw [if_pos hrep] at hw
  rcases hit : pyIterate (instGetAttr field m.states) with e | vs
  · rw [hit] at hw
    cases hw
  · rw [hit] at hw
    have hw2 : (match vs.mapM (convert_proto_value_at fuel2 field) with
        | .error e => (.error e : Except PyError PyValue)
        | .ok ws => .ok (.array ws)) = .ok w := hw
    rcases hm : vs.mapM (convert_proto_value_at fuel2 field) with e | ws
    · rw [hm] at hw2
      cases hw2
    · rw [hm] at hw2
      have hw3 : Except.ok (PyValue.array ws) = Except.ok w := hw2
      injection hw3 with hw4
      refine ⟨fuel2, vs, ws, rfl, mapM_ok_forall2 _ vs ws hm, ?_⟩
      rw [hlook, ← hw4]

/-- C6 witness: the repeated-notes message with two stored elements. -/
theorem encode_output_shape_witness :
    [("notes", PyValue.array [PyValue.string "a", PyValue.string "b"])].map Prod.fst
      = repeatedClass.fields.map FieldDescriptor.name
    ∧ ∀ field ∈ repeatedClass.fields, field.label = .LABEL_REPEATED →
        ∃ fuel2 vs ws,
          pyIterate (instGetAttr field
            [("notes", FieldState.repeatedVals [PyValue.string "a", PyValue.string "b"])])
            = .ok vs
          ∧ List.Forall₂ (fun v w => convert_proto_value_at fuel2 field v = .ok w) vs ws
          ∧ List.lookup field.name
              [("notes", PyValue.array [PyValue.string "a", PyValue.string "b"])]
              = some (.array ws) :=
  encode_output_shape 5
    ⟨repeatedClass, [("notes", .repeatedVals [.string "a", .string "b"])]⟩
    [("notes", .array [.string "a", .string "b"])] (by decide) rfl

/-- C7: a set message-typed field is encoded by recursively encoding the
embedded instance with the message encoder, and the resulting tree is placed
under the field name in the output object. -/
theorem embedded_encode_recursion (fuel : Nat) (m : MessageInstance)
    (out : List (String × PyValue)) (field : FieldDescriptor)
    (mfields : List FieldDescriptor) (mstates : List (String × FieldState PyValue))
    (hnodup : (m.cls.fields.map FieldDescriptor.name).Nodup)
    (hmem : field ∈ m.cls.fields)
    (hmsg : field.type = .TYPE_MESSAGE)
    (hnrep : field.label ≠ .LABEL_REPEATED)
    (hstate : lookupState m.states field.name = .scalarSet (.message mfields mstates))
    (henc : proto2json_dict fuel m = .ok out) :
    ∃ fuel2 sub, proto2json_fields fuel2 mstates [] mfields = .ok sub
      ∧ List.lookup field.name out = some (.object sub) := by
  unfold proto2json_dict at henc
  obtain ⟨-, hlkp⟩ := proto2json_fields_ok_shape m.cls.fields fuel m.states [] out
    hnodup (fun fd _ => rfl) henc
  obtain ⟨fuel2, w, hw, hlook⟩ := hlkp field hmem
  unfold fieldEncodeResult convert_proto_value_at convert_proto_value at hw
  rw [if_neg hnrep] at hw
  have hval : instGetAttr field m.states = .message mfields mstates := by
    unfold instGetAttr stateGetAttr
    rw [hstate]
  rw [hval] at hw
  have hne : ¬field.type = .TYPE_ENUM := by
    intro h
    rw [hmsg] at h
    cases h
  have hns : ¬(TYPE_MAP field.type).isSome = true := by
    intro h
    rw [hmsg] at h
    cases h
  rw [if_neg hne, if_neg hns, if_pos hmsg] at hw
  have hw2 : (proto2json_fields fuel2 mstates [] mfields).map PyValue.object
      = .ok w := hw
  rcases hsub : proto2json_fields fuel2 mstates [] mfields with e | sub
  · rw [hsub] at hw2
    cases hw2
  · rw [hsub] at hw2
    simp only [Except.map, Except.ok.injEq] at hw2
    refine ⟨fuel2, sub, hsub, ?_⟩
    rw [hlook, ← hw2]

/-- C7 witness: the embedded test message, set to an instance whose test
field holds x. -/
theorem embedded_encode_recursion_witness :
    ∃ fuel2 sub,
      proto2json_fields fuel2 [("test", FieldState.scalarSet (PyValue.string "x"))]
          [] [testField] = .ok sub
      ∧ List.lookup embeddedField.name
          [("testmessage", PyValue.object [("test", PyValue.string "x")])]
          = some (.object sub) :=
  embedded_encode_recursion 5
    ⟨embeddedClass,
     [("testmessage", .scalarSet
        (.message [testField] [("test", .scalarSet (.string "x"))]))]⟩
    [("testmessage", .object [("test", .string "x")])]
    embeddedField [testField] [("test", .scalarSet (.string "x"))]
    (by decide) (List.Mem.head _) rfl (by decide) rfl rfl

theorem forall2_roundtrip (cls : MessageClass) (fd : FieldDescriptor)
    (hmem : fd ∈ cls.fields) (hwf : schemaWellFormed cls = true)
    (hnomsg : fd.type ≠ .TYPE_MESSAGE) :
    ∀ (vs ws : List PyValue) (fuel2 : Nat),
    vs.all (valueWellTyped fd.type) = true →
    List.Forall₂ (fun v w => convert_proto_value_at fuel2 fd v = .ok w) vs ws →
    List.Forall₂ (fun v w => convert_json_value fd w cls = .ok v) vs ws := by
  intro vs ws fuel2 hall hfor
  revert hall
  induction hfor with
  | nil =>
    intro _
    exact List.Forall₂.nil
  | cons hab hrest ih =>
    intro hall
    rw [List.all_cons, Bool.and_eq_true] at hall
    refine List.Forall₂.cons ?_ (ih hall.2)
    refine convert_value_roundtrip cls fd
      (fun mf ms => proto2json_fields fuel2 ms [] mf) _ _ hmem hwf hnomsg hall.1 ?_
    unfold convert_proto_value_at at hab
    exact hab

/-- C1: for a well-typed instance of a conforming message class with unique
field names, no message-typed fields and all required fields set, decoding
the JSON text produced by a successful encode yields an instance that
reports the same value as the original on every field descriptor. -/
theorem roundtrip_identity (message_class : MessageClass) (m : MessageInstance)
    (fuel : Nat) (txt : JsonText)
    (hcls : m.cls = message_class)
    (hnodup : (message_class.fields.map FieldDescriptor.name).Nodup)
    (hnomsg : message_class.fields.all (fun fd => fd.type != .TYPE_MESSAGE) = true)
    (hwt : instanceWellTyped message_class m.states = true)
    (hwf : schemaWellFormed message_class = true)
    (hreq : requiredAllSet message_class m.states = true)
    (henc : proto2json fuel m = .ok txt) :
    ∃ m2, json2proto txt message_class = .ok m2
      ∧ fieldForFieldEqual message_class m m2 := by
  subst hcls
  unfold proto2json at henc
  rcases hdict : proto2json_dict fuel m with e | kvs
  · rw [hdict] at henc
    simp [Except.map] at henc
  · rw [hdict] at henc
    simp only [Except.map, Except.ok.injEq] at henc
    subst henc
    unfold proto2json_dict at hdict
    obtain ⟨-, hlkp⟩ := proto2json_fields_ok_shape m.cls.fields fuel m.states [] kvs
      hnodup (fun fd _ => rfl) hdict
    have hnomsg2 : ∀ fd ∈ m.cls.fields, fd.type ≠ .TYPE_MESSAGE := by
      intro fd hm2
      have h := List.all_eq_true.mp hnomsg fd hm2
      simpa using h
    unfold instanceWellTyped at hwt
    have hwt2 : ∀ fd ∈ m.cls.fields,
        stateWellTyped fd (lookupState m.states fd.name) = true :=
      List.all_eq_true.mp hwt
    have hmain : ∀ fd ∈ m.cls.fields, ∃ st,
        fieldDecodeResult m.cls kvs fd = .ok st
        ∧ stateGetAttr fd st = instGetAttr fd m.states := by
      intro fd hm2
      obtain ⟨fuel2, w, hw, hlook⟩ := hlkp fd hm2
      by_cases hrep : fd.label = .LABEL_REPEATED
      · obtain ⟨vs, hvs, helems⟩ : ∃ vs, instGetAttr fd m.states = .array vs
            ∧ vs.all (valueWellTyped fd.type) = true := by
          have hst := hwt2 fd hm2
          cases hstate : lookupState m.states fd.name with
          | repeatedVals vs0 =>
            rw [hstate] at hst
            unfold stateWellTyped at hst
            rw [Bool.and_eq_true] at hst
            refine ⟨vs0, ?_, hst.2⟩
            unfold instGetAttr
            rw [hstate]
            rfl
          | unset =>
            refine ⟨[], ?_, rfl⟩
            unfold instGetAttr stateGetAttr
            rw [hstate, if_pos hrep]
          | scalarSet v =>
            rw [hstate] at hst
            unfold stateWellTyped at hst
            rw [Bool.and_eq_true] at hst
            have hlab := hst.1
            rw [hrep] at hlab
            simp at hlab
        unfold fieldEncodeResult at hw
        rw [if_pos hrep, hvs] at hw
        have hw2 : (match vs.mapM (convert_proto_value_at fuel2 fd) with
            | .error e => (.error e : Except PyError PyValue)
            | .ok ws => .ok (.array ws)) = .ok w := hw
        rcases hm3 : vs.mapM (convert_proto_value_at fuel2 fd) with e | ws
        · rw [hm3] at hw2
          cases hw2
        · rw [hm3] at hw2
          have hw3 : Except.ok (PyValue.array ws) = Except.ok w := hw2
          injection hw3 with hw4
          have hfor := mapM_ok_forall2 (convert_proto_value_at fuel2 fd) vs ws hm3
          have hback := forall2_roundtrip m.cls fd hm2 hwf (hnomsg2 fd hm2)
            vs ws fuel2 helems hfor
          have hdec : ws.mapM (fun v2 => convert_json_value fd v2 m.cls) = .ok vs :=
            forall2_mapM_ok _ vs ws hback
          have hlook2 : List.lookup fd.name kvs = some (.array ws) := by
            rw [hlook, ← hw4]
          refine ⟨.repeatedVals vs, ?_, ?_⟩
          · unfold fieldDecodeResult fieldDecodeEffect
            rw [hlook2]
            have hdec2 : List.mapM.loop (fun v => convert_json_value fd v m.cls) ws []
                = Except.ok vs := hdec
            simp [hrep, pyIterate, hdec2, Except.map, applyEffSt]
          · rw [hvs]
            rfl
      · have hst := hwt2 fd hm2
        have hvt : valueWellTyped fd.type (instGetAttr fd m.states) = true := by
          unfold instGetAttr
          cases hstate : lookupState m.states fd.name with
          | scalarSet v =>
            rw [hstate] at hst
            unfold stateWellTyped at hst
            rw [Bool.and_eq_true] at hst
            exact hst.2
          | unset =>
            unfold stateGetAttr
            rw [if_neg hrep, if_neg (hnomsg2 fd hm2)]
            exact schemaWellFormed_default m.cls fd hwf hm2 (hnomsg2 fd hm2)
          | repeatedVals vs0 =>
            rw [hstate] at hst
            unfold stateWellTyped at hst
            rw [Bool.and_eq_true] at hst
            have hlab := hst.1
            simp at hlab
            exact absurd hlab hrep
        unfold fieldEncodeResult at hw
        rw [if_neg hrep] at hw
        unfold convert_proto_value_at at hw
        have hback := convert_value_roundtrip m.cls fd _ (instGetAttr fd m.states) w
          hm2 hwf (hnomsg2 fd hm2) hvt hw
        refine ⟨.scalarSet (instGetAttr fd m.states), ?_, rfl⟩
        unfold fieldDecodeResult fieldDecodeEffect
        rw [hlook]
        simp [hrep, hback, Except.map, applyEffSt]
    have hallok : ∀ fd ∈ m.cls.fields, isOkE (fieldDecodeEffect m.cls kvs fd) = true := by
      intro fd hm2
      obtain ⟨st, hres, -⟩ := hmain fd hm2
      exact fieldDecodeEffect_ok_of_result m.cls kvs fd st hres
    obtain ⟨final, hfold⟩ := foldlM_decode_ok_of_all m.cls kvs m.cls.fields [] hallok
    refine ⟨⟨m.cls, final⟩, ?_, ?_⟩
    · show (List.foldlM (fieldDecodeStep m.cls kvs) [] m.cls.fields).map
        (fun sts => (⟨m.cls, sts⟩ : MessageInstance)) = .ok ⟨m.cls, final⟩
      rw [hfold]
      rfl
    · intro fd hm2
      obtain ⟨st, hres, hget⟩ := hmain fd hm2
      have hlkup := foldlM_decode_ok_lookup m.cls kvs m.cls.fields [] final fd
        hm2 hnodup hfold rfl
      rw [hres] at hlkup
      injection hlkup with h5
      show stateGetAttr fd (lookupState final fd.name) = instGetAttr fd m.states
      rw [← h5]
      exact hget

/-- C1 witness: the complete Node instance of the test suite. -/
theorem roundtrip_identity_witness :
    ∃ m2, json2proto (simplejson_dumps (.object
        [("nodeid", .string "host1"), ("state", .string "AVAILABLE")])) nodeClass
        = .ok m2
      ∧ fieldForFieldEqual nodeClass
          ⟨nodeClass, [("nodeid", .scalarSet (.string "host1")),
                       ("state", .scalarSet (.integer 1))]⟩ m2 :=
  roundtrip_identity nodeClass
    ⟨nodeClass, [("nodeid", .scalarSet (.string "host1")),
                 ("state", .scalarSet (.integer 1))]⟩
    5
    (simplejson_dumps (.object
      [("nodeid", .string "host1"), ("state", .string "AVAILABLE")]))
    rfl (by decide) rfl rfl rfl rfl rfl
